import Mathlib

/-!
Verification of the snitch TODO tool.

Lines and file contents are modelled as `List Char` (Go strings are byte
strings; the bytes relevant to the claims are plain characters).  The two
anchored regular expressions used by the parser,

  unreported:  ^(.*)TODO: (.*)$
  reported:    ^(.*)TODO\((.*)\): (.*)$

are embedded by their leftmost-first (Perl-style greedy) matching semantics,
which Go's regexp package implements for submatch capture: the first group
is maximised first, then the second.  Since `.` does not match a newline and
the patterns are anchored on the whole text, a line containing a newline
matches neither pattern.
-/

namespace Snitch

/-- Byte strings of the Go program. -/
abbrev Str := List Char

/-- The literal "TODO: " of the unreported pattern. -/
def todoColon : Str := "TODO: ".toList

/-- The literal "TODO(" of the reported pattern. -/
def todoParen : Str := "TODO(".toList

/-- The literal "): " of the reported pattern. -/
def parenColon : Str := "): ".toList

/-- The `Todo` struct of the Go source (src/unnamed/part_000).  The Go field
`Prefix` is named `pfx` here because `prefix` is a reserved word in Lean. -/
structure Todo where
  pfx : Str
  suffix : Str
  id : Option Str
  filename : Str
  line : Nat
  title : Str
deriving DecidableEq

/-- Modelled from the spec: the project configuration referenced by the
parser (`projectConfig.Title.Transform`) is defined in a file of the
repository that is not under src/.  Per spec §3 the derived `title` is "a
display/transform of `suffix` used as the issue title (e.g.
truncation/cleanup rules are project-configurable)", so we model the
configuration as an arbitrary transform on strings. -/
structure ProjectConfig where
  titleTransform : Str → Str

/-- A concrete configuration whose title transform is the identity. -/
def cfg0 : ProjectConfig := ⟨fun s => s⟩

/-- Splits `l` at the last occurrence of `pat` whose following remainder `s`
satisfies `ok s`; returns the parts before and after that occurrence.  This
is the leftmost-first semantics of a leading greedy `(.*)` followed by the
literal `pat` and a pattern characterised by `ok`. -/
def splitLastWhen (pat : Str) (ok : Str → Bool) : Str → Option (Str × Str)
  | [] => if pat.isEmpty ∧ ok [] then some ([], []) else none
  | c :: rest =>
    match splitLastWhen pat ok rest with
    | some (p, s) => some (c :: p, s)
    | none =>
      if pat.isPrefixOf (c :: rest) ∧ ok ((c :: rest).drop pat.length) then
        some ([], (c :: rest).drop pat.length)
      else none

/-- Splits `l` at the last occurrence of `pat` (greedy `(.*)` before a
literal, followed by `(.*)`). -/
def splitLast (pat : Str) (l : Str) : Option (Str × Str) :=
  splitLastWhen pat (fun _ => true) l

/-- `lineAsUnreportedTodo` of src/unnamed/part_000: match the line against
`^(.*)TODO: (.*)$`; the greedy first group splits at the last occurrence of
"TODO: ".  A line containing a newline matches nothing since `.` does not
match newlines. -/
def lineAsUnreportedTodo (tf : ProjectConfig) (line : Str) : Option Todo :=
  if '\n' ∈ line then none
  else
    match splitLast todoColon line with
    | some (p, s) => some ⟨p, s, none, [], 0, tf.titleTransform s⟩
    | none => none

/-- After the greedy first group of the reported pattern takes `pat ++ r`,
the rest of the pattern `(.*)\): (.*)$` matches `r` iff "): " occurs in
`r`. -/
def reportedOk (r : Str) : Bool := (splitLast parenColon r).isSome

/-- `lineAsReportedTodo` of src/unnamed/part_000: match the line against
`^(.*)TODO\((.*)\): (.*)$`.  The first group greedily takes everything up
to the last "TODO(" that is still followed by a "): "; the second group
then greedily extends to the last "): " in the remainder.  Note the
submatch order in the Go code: group 1 is the prefix, group 2 the
identifier, group 3 the suffix. -/
def lineAsReportedTodo (tf : ProjectConfig) (line : Str) : Option Todo :=
  if '\n' ∈ line then none
  else
    match splitLastWhen todoParen reportedOk line with
    | some (p, r) =>
      match splitLast parenColon r with
      | some (i, s) => some ⟨p, s, some i, [], 0, tf.titleTransform s⟩
      | none => none
    | none => none

/-- `LineAsTodo` of src/unnamed/part_000: try the unreported shape first,
fall back to the reported shape. -/
def LineAsTodo (tf : ProjectConfig) (line : Str) : Option Todo :=
  match lineAsUnreportedTodo tf line with
  | some t => some t
  | none => lineAsReportedTodo tf line

/-- `Todo.String()` of src/unnamed/part_000: the canonical source-line form
`"{prefix}TODO: {suffix}"`, or `"{prefix}TODO({id}): {suffix}"` when the
identifier is present. -/
def Todo.string (t : Todo) : Str :=
  match t.id with
  | none => t.pfx ++ todoColon ++ t.suffix
  | some i => t.pfx ++ todoParen ++ i ++ parenColon ++ t.suffix

/-! ## The in-place rewriter (`updateToFile` / `updateInPlace`)

`updateToFile` reads the input with a `bufio.Scanner` (default `ScanLines`
split function) and writes every kept line followed by `'\n'`
(`fmt.Fprintln`) to the temporary file.  `ScanLines` splits the data on
`'\n'`, dropping a single `'\r'` at the end of each segment, and emits a
final segment only if it is non-empty.  The loop checks neither
`scanner.Err()` nor the result of `fmt.Fprintln`, and the deferred
`outputFile.Close()` assigns its error to a local variable after the
function's (unnamed) result has already been fixed, so once `Open` and
`Create` have succeeded the function always returns `nil` — even if the
scanner stopped because of a read error.  `scanStop = some k` models the
scanner failing after delivering `k` lines (for example on a line longer
than the scanner's 64 KiB token limit); `none` models reading to EOF. -/

/-- Go `dropCR`: drop a single terminal `'\r'` from the segment. -/
def dropCR (l : Str) : Str := if l.getLast? = some '\r' then l.dropLast else l

/-- Split on `'\n'`, keeping all (possibly empty) segments;
`splitNl "a\nb" = ["a", "b"]`, `splitNl "a\n" = ["a", ""]`,
`splitNl "" = [""]`. -/
def splitNl : Str → List Str
  | [] => [[]]
  | c :: rest =>
    if c = '\n' then [] :: splitNl rest
    else
      match splitNl rest with
      | [] => [[c]]
      | s :: ss => (c :: s) :: ss

/-- The raw segments delivered by `bufio.ScanLines` (before `dropCR`): split
on `'\n'` and drop the final segment when it is empty (no token is emitted
for the empty data after a terminal newline). -/
def scanSegments (l : Str) : List Str :=
  if (splitNl l).getLast? = some [] then (splitNl l).dropLast else splitNl l

/-- The lines delivered by `scanner.Text()`: the raw segments with a
terminal `'\r'` stripped from each. -/
def scanLines (l : Str) : List Str := (scanSegments l).map dropCR

/-- The loop body of `updateToFile`: apply the callback to each line with
its 1-based number; a line whose callback returns `remove = true` is
omitted, otherwise the replacement string is kept. -/
def processLines (cb : Nat → Str → Str × Bool) : Nat → List Str → List Str
  | _, [] => []
  | n, line :: rest =>
    let (replace, rm) := cb n line
    if rm then processLines cb (n + 1) rest
    else replace :: processLines cb (n + 1) rest

/-- The bytes written by repeated `fmt.Fprintln`: each line followed by a
newline. -/
def joinNl (ls : List Str) : Str := (ls.map (fun l => l ++ ['\n'])).flatten

/-- `Todo.updateToFile` of src/unnamed/part_000, after `Open` and `Create`
succeed: returns the bytes written to the temporary file and whether an
error is returned.  As explained above the returned error is always `nil`
(`false`), even when the scanner stops early on a read error or a write
fails silently. -/
def updateToFile (input : Str) (scanStop : Option Nat)
    (cb : Nat → Str → Str × Bool) : Str × Bool :=
  let lines :=
    match scanStop with
    | none => scanLines input
    | some k => (scanLines input).take k
  (joinNl (processLines cb 1 lines), false)

/-- `Todo.updateInPlace`: write the temporary file, and when no error was
returned rename it over the original.  Returns the final content of the
original file and whether an error is returned.  (A failed rename would
return its error with the original untouched; the rename itself is assumed
to succeed here.) -/
def updateInPlace (orig : Str) (scanStop : Option Nat)
    (cb : Nat → Str → Str × Bool) : Str × Bool :=
  let r := updateToFile orig scanStop cb
  if r.2 then (orig, true) else (r.1, false)

/-- The line callback of `Todo.Update`: replace the todo's recorded line
with its canonical string form. -/
def updateCallback (t : Todo) : Nat → Str → Str × Bool :=
  fun ln line => if ln = t.line then (t.string, false) else (line, false)

/-- The line callback of `Todo.Remove`: delete the todo's recorded line. -/
def removeCallback (t : Todo) : Nat → Str → Str × Bool :=
  fun ln line => if ln = t.line then ([], true) else (line, false)

/-- `Todo.Update` of src/unnamed/part_000 applied to a file with the given
content and scanner behaviour. -/
def Update (t : Todo) (orig : Str) (scanStop : Option Nat) : Str × Bool :=
  updateInPlace orig scanStop (updateCallback t)

/-- `Todo.Remove` of src/unnamed/part_000 applied to a file with the given
content and scanner behaviour. -/
def Remove (t : Todo) (orig : Str) (scanStop : Option Nat) : Str × Bool :=
  updateInPlace orig scanStop (removeCallback t)

/-! ## The tree walker (`WalkTodosOfFile` / `WalkTodosOfDir`)

`WalkTodosOfFile` opens the file (propagating an open error), reads it
line by line, parses each line with `LineAsTodo`, assigns the filename and
1-based line number to every parsed todo, and calls `visit` on it,
returning the visit error immediately if there is one.  A read error that
is not EOF is returned after the lines delivered before it have been
processed.  `WalkTodosOfDir` obtains the file list from `git ls-files`
(propagating its error) and walks the listed files in order, aborting on
the first error.  The error type `ε` is abstract; the model also returns
the list of todos passed to `visit`, in order. -/

/-- The outcome of opening and reading one file: either opening fails, or
it yields its lines followed by EOF (`endErr = none`) or a read error
(`endErr = some e`). -/
inductive FileRead (ε : Type) where
  | openFail (e : ε)
  | content (lines : List Str) (endErr : Option ε)

/-- The read loop of `WalkTodosOfFile`: parse and visit each delivered
line; stop at the first visit error.  Returns the visited todos and the
visit error, if any. -/
def visitLines {ε : Type} (tf : ProjectConfig) (path : Str)
    (visit : Todo → Option ε) : Nat → List Str → List Todo × Option ε
  | _, [] => ([], none)
  | n, line :: rest =>
    match LineAsTodo tf line with
    | none => visitLines tf path visit (n + 1) rest
    | some t =>
      let t' := { t with filename := path, line := n }
      match visit t' with
      | some e => ([t'], some e)
      | none =>
        let r := visitLines tf path visit (n + 1) rest
        (t' :: r.1, r.2)

/-- `WalkTodosOfFile` of src/unnamed/part_000. -/
def WalkTodosOfFile {ε : Type} (tf : ProjectConfig) (file : FileRead ε)
    (path : Str) (visit : Todo → Option ε) : List Todo × Option ε :=
  match file with
  | .openFail e => ([], some e)
  | .content lines endErr =>
    let r := visitLines tf path visit 1 lines
    match r.2 with
    | some e => (r.1, some e)
    | none => (r.1, endErr)

/-- The loop of `WalkTodosOfDir` over the files listed by `git ls-files`:
walk each file in order, aborting on the first error. -/
def walkFiles {ε : Type} (tf : ProjectConfig) (fs : Str → FileRead ε)
    (visit : Todo → Option ε) : List Str → List Todo × Option ε
  | [] => ([], none)
  | p :: rest =>
    let r := WalkTodosOfFile tf (fs p) p visit
    match r.2 with
    | some e => (r.1, some e)
    | none =>
      let r' := walkFiles tf fs visit rest
      (r.1 ++ r'.1, r'.2)

/-- `WalkTodosOfDir` of src/unnamed/part_000: `ls` is the result of
`git ls-files` (its error is propagated), `fs` gives each listed file's
read outcome. -/
def WalkTodosOfDir {ε : Type} (tf : ProjectConfig) (ls : Except ε (List Str))
    (fs : Str → FileRead ε) (visit : Todo → Option ε) : List Todo × Option ε :=
  match ls with
  | .error e => ([], some e)
  | .ok paths => walkFiles tf fs visit paths

/-- A concrete three-file tree used to witness the walker claims: "f1" and
"f3" each hold one unreported todo, opening "f2" fails with error 7. -/
def fs0 : Str → FileRead Nat := fun q =>
  if q = "f1".toList then FileRead.content ["// TODO: a".toList] none
  else if q = "f2".toList then FileRead.openFail 7
  else FileRead.content ["// TODO: c".toList] none

/-- A visitor that always succeeds. -/
def visit0 : Todo → Option Nat := fun _ => none

/-! ## Lemmas about the greedy splitter -/

theorem splitLastWhen_eq_some {pat : Str} {ok : Str → Bool} {l p s : Str}
    (h : splitLastWhen pat ok l = some (p, s)) : l = p ++ pat ++ s ∧ ok s = true := by
  induction l generalizing p s with
  | nil =>
    rw [splitLastWhen] at h
    split_ifs at h with hc
    · obtain ⟨rfl, rfl⟩ : p = [] ∧ s = [] := by simpa [eq_comm] using h
      obtain ⟨h1, h2⟩ := hc
      rw [List.isEmpty_iff] at h1
      simp [h1, h2]
  | cons c rest ih =>
    rw [splitLastWhen] at h
    split at h
    · rename_i p' s' heq
      obtain ⟨rfl, rfl⟩ : c :: p' = p ∧ s' = s := by simpa using h
      obtain ⟨h1, h2⟩ := ih heq
      simp [h1, h2]
    · rename_i heq
      split_ifs at h with hc
      · obtain ⟨rfl, rfl⟩ : p = [] ∧ s = (c :: rest).drop pat.length := by
          simpa [eq_comm] using h
        obtain ⟨h1, h2⟩ := hc
        rw [List.isPrefixOf_iff_prefix] at h1
        obtain ⟨t, ht⟩ := h1
        refine ⟨?_, h2⟩
        rw [List.nil_append, ← ht, List.drop_left]

theorem isInfix_of_splitLastWhen {pat : Str} {ok : Str → Bool} {l : Str}
    (h : (splitLastWhen pat ok l).isSome) : pat <:+: l := by
  obtain ⟨⟨p, s⟩, hps⟩ := Option.isSome_iff_exists.mp h
  obtain ⟨h1, -⟩ := splitLastWhen_eq_some hps
  exact ⟨p, s, h1.symm⟩

theorem splitLast_isSome_of_isInfix {pat l : Str} (h : pat <:+: l) :
    (splitLast pat l).isSome := by
  induction l with
  | nil =>
    rw [List.infix_nil] at h
    subst h
    rw [splitLast, splitLastWhen]
    simp
  | cons c rest ih =>
    rw [splitLast, splitLastWhen]
    split
    · simp
    · rename_i heq
      rcases List.infix_cons_iff.mp h with hpre | hinf
      · rw [if_pos ⟨List.isPrefixOf_iff_prefix.mpr hpre, rfl⟩]
        simp
      · exact absurd (ih hinf) (by simp [splitLast, heq])

theorem splitLastWhen_eq_none_of_not_isInfix {pat : Str} {ok : Str → Bool} {l : Str}
    (h : ¬ pat <:+: l) : splitLastWhen pat ok l = none := by
  cases hsw : splitLastWhen pat ok l with
  | none => rfl
  | some ps =>
    have hs : (splitLastWhen pat ok l).isSome := by rw [hsw]; rfl
    exact absurd (isInfix_of_splitLastWhen hs) h

theorem splitLast_eq_none_iff {pat l : Str} : splitLast pat l = none ↔ ¬ pat <:+: l := by
  constructor
  · intro h hinf
    have := splitLast_isSome_of_isInfix hinf
    rw [h] at this
    exact absurd this (by simp)
  · exact splitLastWhen_eq_none_of_not_isInfix

theorem not_isInfix_right_of_splitLast {pat : Str} (hpat : pat ≠ []) :
    ∀ {l p s : Str}, splitLast pat l = some (p, s) → ¬ pat <:+: s := by
  intro l
  induction l with
  | nil =>
    intro p s h
    rw [splitLast, splitLastWhen] at h
    rw [if_neg (by simp [List.isEmpty_iff, hpat])] at h
    exact absurd h (by simp)
  | cons c rest ih =>
    intro p s h
    rw [splitLast, splitLastWhen] at h
    split at h
    · rename_i p' s' heq
      obtain ⟨-, rfl⟩ : c :: p' = p ∧ s' = s := by simpa using h
      exact ih heq
    · rename_i heq
      split_ifs at h with hc
      · obtain ⟨-, rfl⟩ : p = [] ∧ s = (c :: rest).drop pat.length := by
          simpa [eq_comm] using h
        intro hinf
        obtain ⟨k, hk⟩ : ∃ k, pat.length = k + 1 := by
          cases hp : pat with
          | nil => exact absurd hp hpat
          | cons a as => exact ⟨as.length, by simp [hp]⟩
        have hsuf : (c :: rest).drop pat.length <:+ rest := by
          rw [hk, List.drop_succ_cons]
          exact List.drop_suffix k rest
        have : pat <:+: rest := hinf.trans hsuf.isInfix
        exact absurd (splitLast_isSome_of_isInfix this) (by simp [splitLast, heq])

theorem splitLastWhen_append {pat : Str} {ok : Str → Bool} (c : Char) (cs : Str)
    (hpat : pat = c :: cs) {s : Str} (hok : ok s = true)
    (hnone : splitLastWhen pat ok (cs ++ s) = none) :
    ∀ p : Str, splitLastWhen pat ok (p ++ (pat ++ s)) = some (p, s) := by
  intro p
  induction p with
  | nil =>
    rw [List.nil_append, hpat, List.cons_append, splitLastWhen, ← hpat, hnone]
    have hpre : pat.isPrefixOf (c :: (cs ++ s)) = true := by
      rw [List.isPrefixOf_iff_prefix, hpat, ← List.cons_append]
      exact List.prefix_append _ _
    have hdrop : (c :: (cs ++ s)).drop pat.length = s := by
      rw [hpat, ← List.cons_append, List.drop_left]
    rw [if_pos ⟨hpre, by rw [hdrop]; exact hok⟩, hdrop]
  | cons a p' ih =>
    rw [List.cons_append, splitLastWhen, ih]

/-! ## Occurrence analysis across concatenations -/

theorem head?_eq_of_isPrefixLeft {y B : Str} (h : y <+: B) (hy : y ≠ []) :
    B.head? = y.head? := by
  obtain ⟨t, rfl⟩ := h
  cases y with
  | nil => exact absurd rfl hy
  | cons a ys => rfl

/-- If the first character of `pat` does not occur in `q`, an occurrence of
`pat` in `q ++ s` lies entirely within `s`. -/
theorem isInfix_append_right_iff {pat : Str} (c : Char) (cs : Str)
    (hpat : pat = c :: cs) {q s : Str} (hq : c ∉ q) :
    pat <:+: (q ++ s) ↔ pat <:+: s := by
  induction q with
  | nil => rw [List.nil_append]
  | cons d q' ih =>
    rw [List.mem_cons, not_or] at hq
    constructor
    · intro h
      rw [List.cons_append] at h
      rcases List.infix_cons_iff.mp h with hpre | hinf
      · exfalso
        rw [hpat] at hpre
        exact hq.1 (List.cons_prefix_cons.mp hpre).1
      · exact (ih hq.2).mp hinf
    · intro h
      exact h.trans (List.suffix_append (d :: q') s).isInfix

/-- An occurrence of `pat` in `A ++ B` lies within `A`, lies within `B`, or
spans the border: a non-trivial decomposition `pat = pat.take k ++ pat.drop k`
with the left part a suffix of `A` and the right part a prefix of `B`. -/
theorem isInfix_append_cases {pat A B : Str} (h : pat <:+: (A ++ B)) :
    pat <:+: A ∨ pat <:+: B ∨
      ∃ k, 0 < k ∧ k < pat.length ∧ pat.take k <:+ A ∧ pat.drop k <+: B := by
  induction A with
  | nil =>
    rw [List.nil_append] at h
    exact Or.inr (Or.inl h)
  | cons a A' ih =>
    rw [List.cons_append] at h
    rcases List.infix_cons_iff.mp h with hpre | hinf
    · rw [← List.cons_append] at hpre
      obtain ⟨t, ht⟩ := hpre
      rcases List.append_eq_append_iff.mp ht with ⟨w, hw1, hw2⟩ | ⟨w, hw1, hw2⟩
      · exact Or.inl (List.IsPrefix.isInfix ⟨w, hw1.symm⟩)
      · cases hw : w with
        | nil =>
          refine Or.inl (List.IsPrefix.isInfix ⟨[], ?_⟩)
          rw [hw1, hw, List.append_nil, List.append_nil]
        | cons b bs =>
          refine Or.inr (Or.inr ⟨(a :: A').length, by simp, ?_, ?_, ?_⟩)
          · rw [hw1, List.length_append]
            have : w.length ≠ 0 := by rw [hw]; simp
            omega
          · rw [hw1, List.take_left]
          · rw [hw1, List.drop_left]
            exact ⟨t, hw2.symm⟩
    · rcases ih hinf with h1 | h2 | ⟨k, hk0, hk1, hk2, hk3⟩
      · exact Or.inl (List.infix_cons h1)
      · exact Or.inr (Or.inl h2)
      · exact Or.inr (Or.inr ⟨k, hk0, hk1, hk2.trans (List.suffix_cons a A'), hk3⟩)

/-- No non-trivial suffix of "TODO: " starts with 'T' or ')'. -/
theorem todoColon_drop_head_ne {k : Nat} (h0 : 0 < k) (h6 : k < todoColon.length) :
    (todoColon.drop k).head? ≠ some 'T' ∧ (todoColon.drop k).head? ≠ some ')' := by
  have h6' : k < 6 := by
    have : todoColon.length = 6 := by decide
    omega
  interval_cases k <;> exact ⟨by decide, by decide⟩

/-- No non-trivial suffix of "TODO(" starts with ')'. -/
theorem todoParen_drop_head_ne {k : Nat} (h0 : 0 < k) (h5 : k < todoParen.length) :
    (todoParen.drop k).head? ≠ some ')' := by
  have h5' : k < 5 := by
    have : todoParen.length = 5 := by decide
    omega
  interval_cases k <;> decide

/-- No non-trivial prefix of "TODO: " is a suffix of "TODO(". -/
theorem todoColon_take_not_suffix_todoParen {k : Nat} (h0 : 0 < k)
    (h6 : k < todoColon.length) : ¬ todoColon.take k <:+ todoParen := by
  have h6' : k < 6 := by
    have : todoColon.length = 6 := by decide
    omega
  interval_cases k <;> decide

/-- "TODO: " does not occur in the canonical form of a reported todo whose
prefix, identifier and suffix do not contain it. -/
theorem todoColon_not_in_reported {p i s : Str}
    (hp : ¬ todoColon <:+: p) (hi : ¬ todoColon <:+: i) (hs : ¬ todoColon <:+: s) :
    ¬ todoColon <:+: (p ++ (todoParen ++ (i ++ (parenColon ++ s)))) := by
  intro h
  rcases isInfix_append_cases h with h1 | h2 | ⟨k, hk0, hk1, hk2, hk3⟩
  · exact hp h1
  · rcases isInfix_append_cases h2 with h3 | h4 | ⟨k, hk0, hk1, hk2, hk3⟩
    · exact absurd h3 (by decide)
    · rcases isInfix_append_cases h4 with h5 | h6 | ⟨k, hk0, hk1, hk2, hk3⟩
      · exact hi h5
      · rw [isInfix_append_right_iff 'T' ("ODO: ".toList) (by decide)
          (by decide)] at h6
        exact hs h6
      · have hne : todoColon.drop k ≠ [] := by
          intro hnil
          rw [List.drop_eq_nil_iff] at hnil
          omega
        have := head?_eq_of_isPrefixLeft hk3 hne
        rw [show (parenColon ++ s).head? = some ')' from rfl] at this
        exact (todoColon_drop_head_ne hk0 hk1).2 this.symm
    · exact todoColon_take_not_suffix_todoParen hk0 hk1 hk2
  · have hne : todoColon.drop k ≠ [] := by
      intro hnil
      rw [List.drop_eq_nil_iff] at hnil
      omega
    have := head?_eq_of_isPrefixLeft hk3 hne
    rw [show (todoParen ++ (i ++ (parenColon ++ s))).head? = some 'T' from rfl] at this
    exact (todoColon_drop_head_ne hk0 hk1).1 this.symm

/-- "TODO(" does not occur strictly after the canonical "TODO(" of a
reported form whose identifier and suffix do not contain it. -/
theorem todoParen_not_in_tail {i s : Str}
    (hi : ¬ todoParen <:+: i) (hs : ¬ todoParen <:+: s) :
    ¬ todoParen <:+: ("ODO(".toList ++ (i ++ (parenColon ++ s))) := by
  rw [isInfix_append_right_iff 'T' ("ODO(".toList) (by decide) (by decide)]
  intro h
  rcases isInfix_append_cases h with h1 | h2 | ⟨k, hk0, hk1, hk2, hk3⟩
  · exact hi h1
  · rw [isInfix_append_right_iff 'T' ("ODO(".toList) (by decide)
      (by decide)] at h2
    exact hs h2
  · have hne : todoParen.drop k ≠ [] := by
      intro hnil
      rw [List.drop_eq_nil_iff] at hnil
      omega
    have := head?_eq_of_isPrefixLeft hk3 hne
    rw [show (parenColon ++ s).head? = some ')' from rfl] at this
    exact todoParen_drop_head_ne hk0 hk1 this.symm

/-! ## Parser lemmas -/

theorem lineAsUnreportedTodo_inv {tf : ProjectConfig} {l : Str} {t : Todo}
    (h : lineAsUnreportedTodo tf l = some t) :
    splitLast todoColon l = some (t.pfx, t.suffix) ∧ t.id = none ∧
      t.title = tf.titleTransform t.suffix ∧ '\n' ∉ l := by
  unfold lineAsUnreportedTodo at h
  split_ifs at h with hnl
  split at h
  · rename_i p s heq
    injection h with h'
    subst h'
    exact ⟨heq, rfl, rfl, hnl⟩
  · exact absurd h (by simp)

theorem lineAsUnreportedTodo_append (tf : ProjectConfig) {p s : Str}
    (hnp : '\n' ∉ p) (hns : '\n' ∉ s) (hs : ¬ todoColon <:+: s) :
    lineAsUnreportedTodo tf (p ++ (todoColon ++ s)) =
      some ⟨p, s, none, [], 0, tf.titleTransform s⟩ := by
  have hmem : '\n' ∉ p ++ (todoColon ++ s) := by
    simp only [List.mem_append]
    push_neg
    exact ⟨hnp, by decide, hns⟩
  have hsplit : splitLast todoColon (p ++ (todoColon ++ s)) = some (p, s) := by
    refine splitLastWhen_append 'T' ("ODO: ".toList) (by decide) rfl ?_ p
    refine splitLastWhen_eq_none_of_not_isInfix ?_
    rw [isInfix_append_right_iff 'T' ("ODO: ".toList) (by decide) (by decide)]
    exact hs
  unfold lineAsUnreportedTodo
  rw [if_neg hmem, hsplit]

theorem lineAsUnreportedTodo_reported_none (tf : ProjectConfig) {p i s : Str}
    (hp : ¬ todoColon <:+: p) (hi : ¬ todoColon <:+: i) (hs : ¬ todoColon <:+: s) :
    lineAsUnreportedTodo tf (p ++ (todoParen ++ (i ++ (parenColon ++ s)))) = none := by
  unfold lineAsUnreportedTodo
  split_ifs with hnl
  · rfl
  · rw [splitLast_eq_none_iff.mpr (todoColon_not_in_reported hp hi hs)]

theorem lineAsReportedTodo_append (tf : ProjectConfig) {p i s : Str}
    (hnp : '\n' ∉ p) (hni : '\n' ∉ i) (hns : '\n' ∉ s)
    (hi1 : ¬ todoParen <:+: i) (hs1 : ¬ todoParen <:+: s) (hs2 : ¬ parenColon <:+: s) :
    lineAsReportedTodo tf (p ++ (todoParen ++ (i ++ (parenColon ++ s)))) =
      some ⟨p, s, some i, [], 0, tf.titleTransform s⟩ := by
  have hmem : '\n' ∉ p ++ (todoParen ++ (i ++ (parenColon ++ s))) := by
    simp only [List.mem_append]
    push_neg
    exact ⟨hnp, by decide, hni, by decide, hns⟩
  have hinner : splitLast parenColon (i ++ (parenColon ++ s)) = some (i, s) := by
    refine splitLastWhen_append ')' (": ".toList) (by decide) rfl ?_ i
    refine splitLastWhen_eq_none_of_not_isInfix ?_
    rw [isInfix_append_right_iff ')' (": ".toList) (by decide) (by decide)]
    exact hs2
  have houter : splitLastWhen todoParen reportedOk
      (p ++ (todoParen ++ (i ++ (parenColon ++ s)))) =
        some (p, i ++ (parenColon ++ s)) := by
    refine splitLastWhen_append 'T' ("ODO(".toList) (by decide) ?_ ?_ p
    · rw [reportedOk, hinner]
      rfl
    · exact splitLastWhen_eq_none_of_not_isInfix (todoParen_not_in_tail hi1 hs1)
  unfold lineAsReportedTodo
  rw [if_neg hmem, houter]
  dsimp only
  rw [hinner]

/-! ## Claims about the marker grammar -/

/-- C8: parsing `"  // TODO: fix this"` yields prefix `"  // "`, suffix
`"fix this"` and no identifier; parsing `"x := 1 // TODO(#42): refactor"`
yields prefix `"x := 1 // "`, suffix `"refactor"` and identifier `"#42"`
(for every project configuration; the derived title is not part of the
claim). -/
theorem c8_parse_examples (tf : ProjectConfig) :
    (LineAsTodo tf ("  // TODO: fix this".toList)).map
        (fun t => (t.pfx, t.suffix, t.id)) =
      some ("  // ".toList, "fix this".toList, none) ∧
    (LineAsTodo tf ("x := 1 // TODO(#42): refactor".toList)).map
        (fun t => (t.pfx, t.suffix, t.id)) =
      some ("x := 1 // ".toList, "refactor".toList, some ("#42".toList)) :=
  ⟨rfl, rfl⟩

/-- C9: every line accepted by the unreported grammar splits at the last
occurrence of "TODO: ": the parsed prefix, the literal and the parsed
suffix reconstruct the line exactly, and the suffix never contains
"TODO: ". -/
theorem c9_unreported_greedy_split (tf : ProjectConfig) (l : Str) (t : Todo)
    (h : lineAsUnreportedTodo tf l = some t) :
    t.pfx ++ todoColon ++ t.suffix = l ∧ ¬ todoColon <:+: t.suffix := by
  obtain ⟨hsplit, -, -, -⟩ := lineAsUnreportedTodo_inv h
  exact ⟨((splitLastWhen_eq_some hsplit).1).symm,
    not_isInfix_right_of_splitLast (by decide) hsplit⟩

theorem c9_unreported_greedy_split_witness :
    "x TODO: a ".toList ++ todoColon ++ "b".toList = "x TODO: a TODO: b".toList ∧
      ¬ todoColon <:+: "b".toList :=
  c9_unreported_greedy_split cfg0 ("x TODO: a TODO: b".toList)
    ⟨"x TODO: a ".toList, "b".toList, none, [], 0, "b".toList⟩ (by decide)

/-- C7: for every string accepted by the unreported grammar, rendering the
parse result in canonical form reproduces the string itself, so parsing
again yields the same Todo: the round trip is stable. -/
theorem c7_unreported_roundtrip (tf : ProjectConfig) (s0 : Str) (t : Todo)
    (h : lineAsUnreportedTodo tf s0 = some t) :
    t.string = s0 ∧ lineAsUnreportedTodo tf t.string = some t ∧
      LineAsTodo tf t.string = LineAsTodo tf s0 := by
  obtain ⟨hsplit, hid, -, -⟩ := lineAsUnreportedTodo_inv h
  have h1 := (splitLastWhen_eq_some hsplit).1
  have hstr : t.string = s0 := by
    simp only [Todo.string, hid]
    exact h1.symm
  exact ⟨hstr, by rw [hstr]; exact h, by rw [hstr]⟩

theorem c7_unreported_roundtrip_witness :
    Todo.string ⟨"// ".toList, "x".toList, none, [], 0, "x".toList⟩ =
        "// TODO: x".toList ∧
      lineAsUnreportedTodo cfg0
          (Todo.string ⟨"// ".toList, "x".toList, none, [], 0, "x".toList⟩) =
        some ⟨"// ".toList, "x".toList, none, [], 0, "x".toList⟩ ∧
      LineAsTodo cfg0
          (Todo.string ⟨"// ".toList, "x".toList, none, [], 0, "x".toList⟩) =
        LineAsTodo cfg0 ("// TODO: x".toList) :=
  c7_unreported_roundtrip cfg0 ("// TODO: x".toList)
    ⟨"// ".toList, "x".toList, none, [], 0, "x".toList⟩ (by decide)

/-- C3 counterexample: the line "TODO(x): TODO: y" matches the reported
pattern `^(.*)TODO\((.*)\): (.*)$`, yet `LineAsTodo` parses it with no
identifier (as an unreported todo), because the unreported shape is tried
first — refuting the claim that the reported shape wins whenever both
match. -/
theorem c3_counterexample :
    (lineAsReportedTodo cfg0 ("TODO(x): TODO: y".toList)).isSome = true ∧
      (LineAsTodo cfg0 ("TODO(x): TODO: y".toList)).map Todo.id = some none :=
  ⟨by decide, by decide⟩

/-- C3 (amended): at most one of the two marker shapes effectively applies
to a line, but the precedence is the opposite of the claimed one: for a
line matching the reported pattern, `LineAsTodo` yields the unreported
parse (identifier absent) whenever the unreported pattern also matches,
and the reported parse only when the unreported pattern does not match. -/
theorem c3_unreported_shape_first (tf : ProjectConfig) (l : Str)
    (h : (lineAsReportedTodo tf l).isSome) :
    (LineAsTodo tf l).isSome ∧
      ((lineAsUnreportedTodo tf l).isSome →
        LineAsTodo tf l = lineAsUnreportedTodo tf l ∧
          (LineAsTodo tf l).map Todo.id = some none) ∧
      ((lineAsUnreportedTodo tf l).isSome = false →
        LineAsTodo tf l = lineAsReportedTodo tf l) := by
  rw [LineAsTodo]
  cases hu : lineAsUnreportedTodo tf l with
  | some t =>
    obtain ⟨-, hid, -, -⟩ := lineAsUnreportedTodo_inv hu
    exact ⟨by simp, fun _ => ⟨rfl, by simp [hid]⟩, by simp⟩
  | none => exact ⟨h, by simp, fun _ => rfl⟩

theorem c3_unreported_shape_first_witness :
    (lineAsReportedTodo cfg0 ("TODO(x): TODO: y".toList)).isSome = true ∧
      ((LineAsTodo cfg0 ("TODO(x): TODO: y".toList)).isSome ∧
        ((lineAsUnreportedTodo cfg0 ("TODO(x): TODO: y".toList)).isSome →
          LineAsTodo cfg0 ("TODO(x): TODO: y".toList) =
              lineAsUnreportedTodo cfg0 ("TODO(x): TODO: y".toList) ∧
            (LineAsTodo cfg0 ("TODO(x): TODO: y".toList)).map Todo.id = some none) ∧
        ((lineAsUnreportedTodo cfg0 ("TODO(x): TODO: y".toList)).isSome = false →
          LineAsTodo cfg0 ("TODO(x): TODO: y".toList) =
            lineAsReportedTodo cfg0 ("TODO(x): TODO: y".toList))) :=
  ⟨by decide, c3_unreported_shape_first cfg0 ("TODO(x): TODO: y".toList) (by decide)⟩

/-- C2 counterexample: the unreported Todo with empty prefix and suffix
"aTODO: b" renders as "TODO: aTODO: b", which parses back with prefix
"TODO: a" and suffix "b" — not the original fields — because the greedy
prefix group splits at the last occurrence of "TODO: ". -/
theorem c2_counterexample :
    LineAsTodo cfg0 (Todo.string ⟨[], "aTODO: b".toList, none, [], 0, []⟩) =
        some ⟨"TODO: a".toList, "b".toList, none, [], 0, "b".toList⟩ ∧
      "b".toList ≠ "aTODO: b".toList ∧ "TODO: a".toList ≠ ([] : Str) :=
  ⟨by decide, by decide, by decide⟩

/-- C2 (amended): parsing the canonical form of a Todo yields identical
prefix, suffix and identifier, provided the fields contain no newline, the
suffix does not contain "TODO: ", and — when the Todo is reported — the
prefix and identifier do not contain "TODO: ", the identifier and suffix
do not contain "TODO(", and the suffix does not contain "): ". -/
theorem c2_roundtrip_amended (tf : ProjectConfig) (t : Todo)
    (hnp : '\n' ∉ t.pfx) (hns : '\n' ∉ t.suffix)
    (hsuf : ¬ todoColon <:+: t.suffix)
    (hid : ∀ i, t.id = some i → '\n' ∉ i ∧ ¬ todoColon <:+: t.pfx ∧
      ¬ todoColon <:+: i ∧ ¬ todoParen <:+: i ∧ ¬ todoParen <:+: t.suffix ∧
      ¬ parenColon <:+: t.suffix) :
    ∃ t', LineAsTodo tf t.string = some t' ∧
      t'.pfx = t.pfx ∧ t'.suffix = t.suffix ∧ t'.id = t.id := by
  cases hi : t.id with
  | none =>
    have hstr : t.string = t.pfx ++ (todoColon ++ t.suffix) := by
      simp only [Todo.string, hi]
      rw [List.append_assoc]
    refine ⟨⟨t.pfx, t.suffix, none, [], 0, tf.titleTransform t.suffix⟩, ?_, rfl, rfl, rfl⟩
    rw [LineAsTodo, hstr, lineAsUnreportedTodo_append tf hnp hns hsuf]
  | some i =>
    obtain ⟨hni, hp1, hi1, hi2, hs1, hs2⟩ := hid i hi
    have hstr : t.string = t.pfx ++ (todoParen ++ (i ++ (parenColon ++ t.suffix))) := by
      simp only [Todo.string, hi]
      simp [List.append_assoc]
    refine ⟨⟨t.pfx, t.suffix, some i, [], 0, tf.titleTransform t.suffix⟩, ?_, rfl, rfl, rfl⟩
    rw [LineAsTodo, hstr, lineAsUnreportedTodo_reported_none tf hp1 hi1 hsuf,
      lineAsReportedTodo_append tf hnp hni hns hi2 hs1 hs2]

theorem c2_roundtrip_amended_witness :
    ∃ t', LineAsTodo cfg0
        (Todo.string ⟨"  // ".toList, "refactor".toList, some ("#42".toList),
          "f.go".toList, 3, "refactor".toList⟩) = some t' ∧
      t'.pfx = "  // ".toList ∧ t'.suffix = "refactor".toList ∧
        t'.id = some ("#42".toList) :=
  c2_roundtrip_amended cfg0
    ⟨"  // ".toList, "refactor".toList, some ("#42".toList), "f.go".toList, 3,
      "refactor".toList⟩
    (by decide) (by decide) (by decide)
    (fun i hi => by
      injection hi with hi'
      subst hi'
      exact ⟨by decide, by decide, by decide, by decide, by decide, by decide⟩)

/-! ## Lemmas about the rewriter -/

theorem dropCR_eq_self {s : Str} (h : s.getLast? ≠ some '\r') : dropCR s = s := by
  rw [dropCR, if_neg h]

theorem joinNl_cons (a : Str) (as : List Str) :
    joinNl (a :: as) = a ++ ['\n'] ++ joinNl as := by
  simp [joinNl]

theorem joinNl_append (A B : List Str) : joinNl (A ++ B) = joinNl A ++ joinNl B := by
  simp [joinNl]

theorem splitNl_ne_nil (l : Str) : splitNl l ≠ [] := by
  cases l with
  | nil => simp [splitNl]
  | cons c rest =>
    rw [splitNl]
    split_ifs
    · simp
    · cases h : splitNl rest <;> simp

theorem joinNl_splitNl (l : Str) : joinNl (splitNl l) = l ++ ['\n'] := by
  induction l with
  | nil => rfl
  | cons c rest ih =>
    rw [splitNl]
    split_ifs with hc
    · subst hc
      rw [joinNl_cons, ih]
      simp
    · cases hsp : splitNl rest with
      | nil => exact absurd hsp (splitNl_ne_nil rest)
      | cons s ss =>
        have hjoin : joinNl (s :: ss) = rest ++ ['\n'] := by rw [← hsp]; exact ih
        rw [joinNl_cons] at hjoin
        rw [joinNl_cons]
        simp only [List.cons_append, List.append_assoc] at hjoin ⊢
        exact congrArg (c :: ·) hjoin

/-- The content written back by an identity pass is the input, except that a
missing final newline is appended. -/
theorem joinNl_scanSegments (l : Str) :
    joinNl (scanSegments l) = l ∨ joinNl (scanSegments l) = l ++ ['\n'] := by
  rw [scanSegments]
  split_ifs with h
  · left
    have hparts : (splitNl l).dropLast ++ [[]] = splitNl l :=
      List.dropLast_append_getLast? [] (Option.mem_def.mpr h)
    have h2 : joinNl ((splitNl l).dropLast) ++ ['\n'] = l ++ ['\n'] := by
      rw [← joinNl_splitNl l, ← hparts, joinNl_append]
      simp [joinNl]
    exact (List.append_left_inj _).mp h2
  · right
    exact joinNl_splitNl l

theorem processLines_id (i : Nat) (ls : List Str) :
    processLines (fun _ line => (line, false)) i ls = ls := by
  induction ls generalizing i with
  | nil => rfl
  | cons a ls ih =>
    rw [processLines]
    simp only [Bool.false_eq_true, if_false]
    rw [ih]

/-- A callback that is the identity away from its target line leaves the
lines untouched when the whole range lies before the target. -/
theorem processLines_no_target {f : Nat → Str → Str × Bool} {n : Nat}
    (hf : ∀ ln line, ln ≠ n → f ln line = (line, false)) :
    ∀ (i : Nat) (ls : List Str), i + ls.length ≤ n → processLines f i ls = ls := by
  intro i ls
  induction ls generalizing i with
  | nil => intro _; rfl
  | cons a ls ih =>
    intro h
    simp only [List.length_cons] at h
    rw [processLines, hf i a (by omega)]
    simp only [Bool.false_eq_true, if_false]
    rw [ih (i + 1) (by omega)]

/-- A callback that is the identity away from its target line leaves the
lines untouched when the whole range lies after the target. -/
theorem processLines_past_target {f : Nat → Str → Str × Bool} {n : Nat}
    (hf : ∀ ln line, ln ≠ n → f ln line = (line, false)) :
    ∀ (i : Nat) (ls : List Str), n < i → processLines f i ls = ls := by
  intro i ls
  induction ls generalizing i with
  | nil => intro _; rfl
  | cons a ls ih =>
    intro h
    rw [processLines, hf i a (by omega)]
    simp only [Bool.false_eq_true, if_false]
    rw [ih (i + 1) (by omega)]

theorem removeCallback_ne {t : Todo} (ln : Nat) (line : Str) (h : ln ≠ t.line) :
    removeCallback t ln line = (line, false) := by
  rw [removeCallback]
  simp [h]

theorem updateCallback_ne {t : Todo} (ln : Nat) (line : Str) (h : ln ≠ t.line) :
    updateCallback t ln line = (line, false) := by
  rw [updateCallback]
  simp [h]

/-- The delete transform of `Remove`, run from line `i ≤ target`, erases
exactly the target line. -/
theorem processLines_remove (t : Todo) :
    ∀ (i : Nat) (ls : List Str), i ≤ t.line →
      processLines (removeCallback t) i ls =
        ls.take (t.line - i) ++ ls.drop (t.line - i + 1) := by
  intro i ls
  induction ls generalizing i with
  | nil => intro _; simp [processLines]
  | cons a ls ih =>
    intro h
    rcases Nat.eq_or_lt_of_le h with heq | hlt
    · rw [processLines, removeCallback]
      rw [if_pos heq]
      dsimp only
      rw [if_pos rfl]
      rw [processLines_past_target (fun ln line h' => removeCallback_ne ln line h')
        (i + 1) ls (by omega)]
      rw [show t.line - i = 0 from by omega]
      simp
    · obtain ⟨k, hk⟩ : ∃ k, t.line - i = k + 1 := ⟨t.line - i - 1, by omega⟩
      rw [processLines, removeCallback_ne i a (by omega)]
      simp only [Bool.false_eq_true, if_false]
      rw [ih (i + 1) (by omega), hk]
      have hk' : t.line - (i + 1) = k := by omega
      rw [hk']
      simp [List.take_succ_cons, List.drop_succ_cons]

/-! ## Claims about the rewriter -/

/-- C1 (code bug): when the scanner stops with a read error after delivering
only the first line of "a\nb\n" (for example because line 2 exceeds the
scanner's token limit), `updateInPlace` with the identity transform reports
no error and renames the truncated temporary file over the original: the
file becomes "a\n" and the line "b" is lost, because `updateToFile` checks
neither `scanner.Err()` nor the write results, and its deferred close
assigns the close error to a local after the (unnamed) result is fixed. -/
theorem c1_read_error_truncates_silently :
    updateInPlace ("a\nb\n".toList) (some 1) (fun _ line => (line, false)) =
      ("a\n".toList, false) ∧
    ("a\n".toList : Str) ≠ "a\nb\n".toList :=
  ⟨by decide, by decide⟩

/-- C5 counterexample: rewriting "a\r\nb" with the identity transform
yields "a\nb\n" — the interior "\r\n" is rewritten to "\n", a difference
that is not trailing-newline normalization at the end of the file. -/
theorem c5_counterexample :
    (updateToFile ("a\r\nb".toList) none (fun _ line => (line, false))).1 =
        "a\nb\n".toList ∧
      (updateToFile ("a\r\nb".toList) none (fun _ line => (line, false))).1 ≠
        "a\r\nb".toList ∧
      (updateToFile ("a\r\nb".toList) none (fun _ line => (line, false))).1 ≠
        "a\r\nb".toList ++ ['\n'] :=
  ⟨by decide, by decide, by decide⟩

/-- C5 (amended): for every input file none of whose scanned line segments
ends with a carriage return, running the rewriter with the identity
transform returns no error and produces output byte-for-byte identical to
the input up to trailing-newline normalization: the output is the input,
possibly with a final newline appended. -/
theorem c5_identity_rewrite_amended (input : Str)
    (h : ∀ s ∈ scanSegments input, s.getLast? ≠ some '\r') :
    (updateToFile input none (fun _ line => (line, false))).2 = false ∧
      ((updateToFile input none (fun _ line => (line, false))).1 = input ∨
        (updateToFile input none (fun _ line => (line, false))).1 =
          input ++ ['\n']) := by
  have hmap : scanLines input = scanSegments input := by
    rw [scanLines]
    rw [List.map_congr_left (fun s hs => dropCR_eq_self (h s hs))]
    exact List.map_id _
  refine ⟨rfl, ?_⟩
  rw [updateToFile]
  dsimp only
  rw [processLines_id, hmap]
  exact joinNl_scanSegments input

theorem c5_identity_rewrite_amended_witness :
    (∀ s ∈ scanSegments ("a\nb".toList), s.getLast? ≠ some '\r') ∧
      ((updateToFile ("a\nb".toList) none (fun _ line => (line, false))).2 = false ∧
        ((updateToFile ("a\nb".toList) none (fun _ line => (line, false))).1 =
            "a\nb".toList ∨
          (updateToFile ("a\nb".toList) none (fun _ line => (line, false))).1 =
            "a\nb".toList ++ ['\n'])) :=
  ⟨by decide, c5_identity_rewrite_amended ("a\nb".toList) (by decide)⟩

/-- C6: for every file with at least `t.line ≥ 1` lines, `Remove` (the
delete transform targeting line `t.line`) succeeds and writes exactly the
original line sequence with the target line erased: every other line is
kept in its original order and content, and the written sequence has
exactly one fewer line than the scanned input. -/
theorem c6_remove_deletes_exactly_one_line (t : Todo) (input : Str)
    (h1 : 1 ≤ t.line) (h2 : t.line ≤ (scanLines input).length) :
    Remove t input none =
      (joinNl ((scanLines input).take (t.line - 1) ++ (scanLines input).drop t.line),
        false) ∧
    processLines (removeCallback t) 1 (scanLines input) =
      (scanLines input).take (t.line - 1) ++ (scanLines input).drop t.line ∧
    ((scanLines input).take (t.line - 1) ++ (scanLines input).drop t.line).length =
      (scanLines input).length - 1 := by
  have hproc : processLines (removeCallback t) 1 (scanLines input) =
      (scanLines input).take (t.line - 1) ++ (scanLines input).drop t.line := by
    rw [processLines_remove t 1 (scanLines input) h1]
    rw [show t.line - 1 + 1 = t.line from by omega]
  refine ⟨?_, hproc, ?_⟩
  · rw [Remove, updateInPlace, updateToFile]
    dsimp only
    rw [hproc]
    simp only [Bool.false_eq_true, if_false]
  · rw [List.length_append, List.length_take, List.length_drop]
    omega

theorem c6_remove_deletes_exactly_one_line_witness :
    Remove ⟨[], [], none, [], 2, []⟩ ("a\nb\nc".toList) none =
        (joinNl ((scanLines ("a\nb\nc".toList)).take 1 ++
          (scanLines ("a\nb\nc".toList)).drop 2), false) ∧
      processLines (removeCallback ⟨[], [], none, [], 2, []⟩) 1
          (scanLines ("a\nb\nc".toList)) =
        (scanLines ("a\nb\nc".toList)).take 1 ++ (scanLines ("a\nb\nc".toList)).drop 2 ∧
      ((scanLines ("a\nb\nc".toList)).take 1 ++
          (scanLines ("a\nb\nc".toList)).drop 2).length =
        (scanLines ("a\nb\nc".toList)).length - 1 :=
  c6_remove_deletes_exactly_one_line ⟨[], [], none, [], 2, []⟩ ("a\nb\nc".toList)
    (by decide) (by decide)

/-- C10: when the todo's recorded line number exceeds the number of scanned
lines, `Update` and `Remove` return success and write exactly the scanned
line sequence unchanged (the file content is only normalized: each line is
re-terminated with a newline). -/
theorem c10_out_of_range_is_noop (t : Todo) (input : Str)
    (h : (scanLines input).length < t.line) :
    Update t input none = (joinNl (scanLines input), false) ∧
    Remove t input none = (joinNl (scanLines input), false) ∧
    processLines (updateCallback t) 1 (scanLines input) = scanLines input ∧
    processLines (removeCallback t) 1 (scanLines input) = scanLines input := by
  have hu : processLines (updateCallback t) 1 (scanLines input) = scanLines input :=
    processLines_no_target (fun ln line h' => updateCallback_ne ln line h') 1 _
      (by omega)
  have hr : processLines (removeCallback t) 1 (scanLines input) = scanLines input :=
    processLines_no_target (fun ln line h' => removeCallback_ne ln line h') 1 _
      (by omega)
  refine ⟨?_, ?_, hu, hr⟩
  · rw [Update, updateInPlace, updateToFile]
    dsimp only
    rw [hu]
    simp only [Bool.false_eq_true, if_false]
  · rw [Remove, updateInPlace, updateToFile]
    dsimp only
    rw [hr]
    simp only [Bool.false_eq_true, if_false]

theorem c10_out_of_range_is_noop_witness :
    Update ⟨[], [], none, [], 5, []⟩ ("a\nb\n".toList) none =
        (joinNl (scanLines ("a\nb\n".toList)), false) ∧
      Remove ⟨[], [], none, [], 5, []⟩ ("a\nb\n".toList) none =
        (joinNl (scanLines ("a\nb\n".toList)), false) ∧
      processLines (updateCallback ⟨[], [], none, [], 5, []⟩) 1
          (scanLines ("a\nb\n".toList)) = scanLines ("a\nb\n".toList) ∧
      processLines (removeCallback ⟨[], [], none, [], 5, []⟩) 1
          (scanLines ("a\nb\n".toList)) = scanLines ("a\nb\n".toList) :=
  c10_out_of_range_is_noop ⟨[], [], none, [], 5, []⟩ ("a\nb\n".toList) (by decide)

/-! ## Claims about the tree walker -/

theorem walkFiles_error {ε : Type} (tf : ProjectConfig) (fs : Str → FileRead ε)
    (visit : Todo → Option ε) (e : ε) (p : Str) (post : List Str)
    (herr : (WalkTodosOfFile tf (fs p) p visit).2 = some e) :
    ∀ pre : List Str, (∀ q ∈ pre, (WalkTodosOfFile tf (fs q) q visit).2 = none) →
      walkFiles tf fs visit (pre ++ p :: post) =
        ((pre.map fun q => (WalkTodosOfFile tf (fs q) q visit).1).flatten ++
          (WalkTodosOfFile tf (fs p) p visit).1, some e) := by
  intro pre
  induction pre with
  | nil =>
    intro _
    rw [List.nil_append, walkFiles]
    dsimp only
    rw [herr]
    simp
  | cons q pre' ih =>
    intro hpre
    rw [List.cons_append, walkFiles]
    dsimp only
    rw [hpre q (by simp)]
    dsimp only
    rw [ih (fun q' hq' => hpre q' (by simp [hq']))]
    simp [List.append_assoc]

/-- C4: any error in the walk — a failure to open or read a file, or an
error returned by the visit callback — aborts the entire directory walk at
that file and is propagated unchanged to the caller; the visited todos are
exactly those of the error-free earlier files (in `git ls-files` order)
plus those visited in the failing file before its error, so no todo of any
later file is visited, and no errors are aggregated. -/
theorem c4_walk_aborts_on_first_error {ε : Type} (tf : ProjectConfig)
    (fs : Str → FileRead ε) (visit : Todo → Option ε)
    (pre : List Str) (p : Str) (post : List Str) (e : ε)
    (hpre : ∀ q ∈ pre, (WalkTodosOfFile tf (fs q) q visit).2 = none)
    (herr : (WalkTodosOfFile tf (fs p) p visit).2 = some e) :
    WalkTodosOfDir tf (Except.ok (pre ++ p :: post)) fs visit =
      ((pre.map fun q => (WalkTodosOfFile tf (fs q) q visit).1).flatten ++
        (WalkTodosOfFile tf (fs p) p visit).1, some e) :=
  walkFiles_error tf fs visit e p post herr pre hpre

theorem c4_walk_aborts_on_first_error_witness :
    (∀ q ∈ ["f1".toList], (WalkTodosOfFile cfg0 (fs0 q) q visit0).2 = none) ∧
      (WalkTodosOfFile cfg0 (fs0 ("f2".toList)) ("f2".toList) visit0).2 = some 7 ∧
      WalkTodosOfDir cfg0 (Except.ok (["f1".toList] ++ "f2".toList :: ["f3".toList]))
          fs0 visit0 =
        ((["f1".toList].map fun q => (WalkTodosOfFile cfg0 (fs0 q) q visit0).1).flatten ++
          (WalkTodosOfFile cfg0 (fs0 ("f2".toList)) ("f2".toList) visit0).1, some 7) :=
  ⟨by decide, by decide,
    c4_walk_aborts_on_first_error cfg0 fs0 visit0 ["f1".toList] ("f2".toList)
      ["f3".toList] 7 (by decide) (by decide)⟩

end Snitch
